import Mathlib

/-!
Verification of the KishEditor conversion core: the LaTeX serializer
(`fromLatex` / `toLatex`, from src `LatexSerializer`) and the HTML renderer
(`render` / `processDocument`, from src `LatexRenderer`).

Strings are modelled as `List Char` (`Str`).  Every JS string operation and
every concrete regular expression used by the source is translated into an
executable Lean function with the same observable behaviour (left-to-right,
non-overlapping global replacement; lazy or greedy capture exactly as the
regex in the source is lazy or greedy).  Loops whose index can jump
(`i = endIndex`) are modelled with an explicit fuel argument that is at
least the number of remaining iterations, so the functions are total and
compute by kernel reduction.
-/

set_option maxRecDepth 100000

abbrev Str := List Char

/-- Coerce a Lean string literal to the `List Char` string model. -/
def cs (s : String) : Str := s.data

/-- Opening brace character. -/
def lb : Char := Char.ofNat 123

/-- Closing brace character. -/
def rb : Char := Char.ofNat 125

/-- A LaTeX command pattern `\cmd{` (the literal the regexes match before the
captured group). -/
def cmdPat (s : String) : Str := cs s ++ [lb]

/-- JS whitespace (`\s`, restricted to the characters that can occur here). -/
def isSpaceJS (c : Char) : Bool :=
  c == ' ' || c == '\t' || c == '\n' || c == '\r' ||
  c == Char.ofNat 11 || c == Char.ofNat 12 || c == Char.ofNat 160 ||
  c == Char.ofNat 0xFEFF

/-- JS `String.trim`. -/
def jsTrim (s : Str) : Str :=
  ((s.dropWhile isSpaceJS).reverse.dropWhile isSpaceJS).reverse

/-- JS `String.startsWith`. -/
def strStarts : Str → Str → Bool
  | _, [] => true
  | [], _ :: _ => false
  | c :: s, p :: ps => c == p && strStarts s ps

/-- JS `String.split` with a single-character separator. -/
def splitOnChar (sep : Char) : Str → List Str
  | [] => [[]]
  | c :: r =>
    if c == sep then [] :: splitOnChar sep r
    else
      match splitOnChar sep r with
      | [] => [[c]]
      | h :: t => (c :: h) :: t

/-- JS `Array.join` with a string separator. -/
def joinSep (sep : Str) : List Str → Str
  | [] => []
  | [x] => x
  | x :: xs => x ++ sep ++ joinSep sep xs

/-- Concatenation of a list of strings (`Array.join('')`). -/
def flatStr (l : List Str) : Str := l.foldr (· ++ ·) []

/-- First index at or after the running index `idx` where `pat` occurs
(JS `String.indexOf`, index threaded through the recursion). -/
def findAux : Str → Str → Nat → Option Nat
  | _, [], idx => some idx
  | [], _ :: _, _ => none
  | c :: r, p :: ps, idx =>
    if strStarts (c :: r) (p :: ps) then some idx else findAux r (p :: ps) (idx + 1)

/-- JS `String.indexOf(pat, start)`. -/
def findFrom (s pat : Str) (start : Nat) : Option Nat :=
  findAux (s.drop start) pat start

/-- JS `String.lastIndexOf(pat)` (index of the last occurrence). -/
def lastAux : Str → Str → Nat → Option Nat → Option Nat
  | [], _, _, acc => acc
  | c :: r, pat, idx, acc =>
    lastAux r pat (idx + 1) (if strStarts (c :: r) pat then some idx else acc)

/-- Index of the last occurrence of `pat` in `s`, if any. -/
def lastFind (s pat : Str) : Option Nat := lastAux s pat 0 none

/-- Whether `pat` occurs somewhere in `s`. -/
def containsSubstr (s pat : Str) : Bool := (findAux s pat 0).isSome

/-- Number of positions of `s` at which `pat` occurs. -/
def countSubstr : Str → Str → Nat
  | [], _ => 0
  | c :: r, pat => (if strStarts (c :: r) pat then 1 else 0) + countSubstr r pat

/-- First index at or after `start` holding character `c` (JS `indexOf(ch, start)`). -/
def findCharFrom (s : Str) (ch : Char) (start : Nat) : Option Nat :=
  findFrom s [ch] start

/-- Index of the last occurrence of character `ch` (JS `lastIndexOf(ch)`). -/
def lastCharIdx (s : Str) (ch : Char) : Option Nat := lastFind s [ch]

/-- JS `String.substring(a, b)`: clamps both arguments to the string length
and swaps them when `a > b`. -/
def jsSubstring (s : Str) (a b : Nat) : Str :=
  let n := s.length
  let a2 := min a n
  let b2 := min b n
  let lo := min a2 b2
  let hi := max a2 b2
  (s.drop lo).take (hi - lo)

/-- Global replacement of the literal `pat` by `rep`
(JS `replace(/pat/g, rep)`, left to right, non-overlapping); `fuel`
bounds the number of emitted characters/matches. -/
def replaceAllAux (pat rep : Str) : Nat → Str → Str
  | 0, s => s
  | _ + 1, [] => []
  | fuel + 1, c :: r =>
    if strStarts (c :: r) pat && !pat.isEmpty then
      rep ++ replaceAllAux pat rep fuel ((c :: r).drop pat.length)
    else c :: replaceAllAux pat rep fuel r

/-- Global literal replacement (JS `replace(/pat/g, rep)`). -/
def replaceAllStr (pat rep s : Str) : Str := replaceAllAux pat rep s.length s

/-- Global replacement of `pat("…")`-style commands: the regex
`pat\{([^}]+)\}` (here `pat` already ends in the opening brace), each match
replaced by `mk` of the captured group. -/
def replaceCmdAux (pat : Str) (mk : Str → Str) : Nat → Str → Str
  | 0, s => s
  | _ + 1, [] => []
  | fuel + 1, c :: r =>
    if strStarts (c :: r) pat then
      let rest := (c :: r).drop pat.length
      let arg := rest.takeWhile (fun x => x != rb)
      match rest.drop arg.length with
      | b :: after =>
        if arg.isEmpty || !(b == rb) then c :: replaceCmdAux pat mk fuel r
        else mk arg ++ replaceCmdAux pat mk fuel after
      | [] => c :: replaceCmdAux pat mk fuel r
    else c :: replaceCmdAux pat mk fuel r

/-- Global command replacement, fuel initialised from the input length. -/
def replaceCmd (pat : Str) (mk : Str → Str) (s : Str) : Str :=
  replaceCmdAux pat mk s.length s

/-- First match of `pat\{([^}]+)\}` in `s`: the captured group
(JS `String.match`, non-global). -/
def findCmdArg (pat : Str) : Str → Option Str
  | [] => none
  | c :: r =>
    if strStarts (c :: r) (pat ++ [lb]) then
      let rest := (c :: r).drop (pat.length + 1)
      let arg := rest.takeWhile (fun x => x != rb)
      match rest.drop arg.length with
      | b :: _ => if arg.isEmpty || !(b == rb) then findCmdArg pat r else some arg
      | [] => findCmdArg pat r
    else findCmdArg pat r

/-- Global lazy environment replacement: the regex
`beginLit([\s\S]*?)endLit`, each match replaced by `mk` of the enclosed
text (lazy body: the first `endLit` after `beginLit` closes the match). -/
def replaceEnvAux (beginLit endLit : Str) (mk : Str → Str) : Nat → Str → Str
  | 0, s => s
  | _ + 1, [] => []
  | fuel + 1, c :: r =>
    if strStarts (c :: r) beginLit then
      let rest := (c :: r).drop beginLit.length
      match findAux rest endLit 0 with
      | some k =>
        mk (rest.take k) ++ replaceEnvAux beginLit endLit mk fuel (rest.drop (k + endLit.length))
      | none => c :: replaceEnvAux beginLit endLit mk fuel r
    else c :: replaceEnvAux beginLit endLit mk fuel r

/-- Global lazy environment replacement, fuel initialised from the input. -/
def replaceEnv (beginLit endLit : Str) (mk : Str → Str) (s : Str) : Str :=
  replaceEnvAux beginLit endLit mk s.length s

/-! ## Data model

The source stores documents as Tiptap JSON (`TiptapNode`: open `type` string
plus `attrs`/`content`/`text`/`marks`).  Following the closed set of node
and mark types the serializer produces and consumes, the embedding uses a
closed sum type. -/

inductive Mark where
  | bold | italic | underline | code | strike | highlight
  | link (href : Str)
deriving BEq

inductive TNode where
  | heading (level : Nat) (content : List TNode)
  | paragraph (content : List TNode)
  | bulletList (content : List TNode)
  | orderedList (content : List TNode)
  | listItem (content : List TNode)
  | blockquote (content : List TNode)
  | table (content : List TNode)
  | tableRow (content : List TNode)
  | tableHeader (content : List TNode)
  | tableCell (content : List TNode)
  | inlineMath (latex : Str)
  | blockMath (latex : Str)
  | text (text : Str) (marks : List Mark)
  | hardBreak

/-- Source `TiptapDocument`: the `doc` wrapper around the top-level block nodes. -/
structure TDoc where
  content : List TNode

/-- The `content` array of a node (empty for leaf nodes, matching the JS
`node.content?.length || 0` reads). -/
def nodeContent : TNode → List TNode
  | .heading _ c => c
  | .paragraph c => c
  | .bulletList c => c
  | .orderedList c => c
  | .listItem c => c
  | .blockquote c => c
  | .table c => c
  | .tableRow c => c
  | .tableHeader c => c
  | .tableCell c => c
  | _ => []

/-! ## Serializer: LaTeX → Tiptap (`LatexSerializer.fromLatex`) -/

/-- Source `LatexSerializer.parseFormatting`: replaces `\textbf{…}` / `\textit{…}`
spans by `<BOLD>…</BOLD>` / `<ITALIC>…</ITALIC>` placeholder text and wraps
the result in a single mark-less text node (the source comment says marks
are not parsed properly yet). -/
def parseFormatting (t : Str) : List TNode :=
  let t1 := replaceCmd (cmdPat "\\textbf") (fun c => cs "<BOLD>" ++ c ++ cs "</BOLD>") t
  let t2 := replaceCmd (cmdPat "\\textit") (fun c => cs "<ITALIC>" ++ c ++ cs "</ITALIC>") t1
  if t2.isEmpty then [] else [.text t2 []]

/-- Flush the pending plain-text buffer through the formatting sub-pass
(`if (current) nodes.push(...this.parseFormatting(current))`). -/
def flushFmt (cur : Str) : List TNode :=
  if cur.isEmpty then [] else parseFormatting cur

/-- First index `k` with `s[k] = '$'` and `s[k+1] = '$'` (the closing
scan of the display-math branch). -/
def findDD : Str → Option Nat
  | c1 :: c2 :: r => if c1 == '$' && c2 == '$' then some 0 else (findDD (c2 :: r)).map (· + 1)
  | _ => none

/-- Source `LatexSerializer.parseInlineContent`, scanning loop.  `rest` is the
unread input, `cur` the pending plain-text buffer; `fuel` bounds the number
of loop iterations (each iteration consumes at least one character, so
`rest.length + 1` is always enough). -/
def parseInlineAux : Nat → Str → Str → List TNode
  | 0, _, cur => flushFmt cur
  | _ + 1, [], cur => flushFmt cur
  | fuel + 1, c :: r, cur =>
    if c == '$' then
      match r with
      | '$' :: r2 =>
        flushFmt cur ++
          match findDD r2 with
          | some k => .blockMath (r2.take k) :: parseInlineAux fuel (r2.drop (k + 2)) []
          | none => parseInlineAux fuel r ['$']
      | _ =>
        flushFmt cur ++
          match findCharFrom r '$' 0 with
          | some j => .inlineMath (r.take j) :: parseInlineAux fuel (r.drop (j + 1)) []
          | none => parseInlineAux fuel r ['$']
    else parseInlineAux fuel r (cur ++ [c])

/-- Source `LatexSerializer.parseInlineContent`. -/
def parseInline (t : Str) : List TNode :=
  parseInlineAux (t.length + 1) t []

/-- Source `LatexSerializer.createParagraphNode`: inline-parse the text and fall
back to a single empty text node when no inline nodes were produced. -/
def createParagraphNode (t : Str) : TNode :=
  let segs := parseInline t
  .paragraph (if segs.isEmpty then [.text [] []] else segs)

/-- Source `LatexSerializer.createHeadingNode`. -/
def createHeadingNode (t : Str) (level : Nat) : TNode :=
  .heading level [.text t []]

/-- Source `LatexSerializer.extractBraces`: substring between the first `{` at or
after `cmdLen` and the last `}` (JS `substring` swap/clamp semantics),
empty when either brace is missing. -/
def extractBraces (line : Str) (cmdLen : Nat) : Str :=
  match findCharFrom line lb cmdLen, lastCharIdx line rb with
  | some a, some b => jsSubstring line (a + 1) b
  | _, _ => []

/-- One list item node (`\item` line: text after the first 5 characters,
trimmed, wrapped in a paragraph inside a list item). -/
def mkListItem (txt : Str) : TNode :=
  .listItem [.paragraph [.text txt []]]

/-- Source `LatexSerializer.parseList`, inner loop over the lines after the
environment opener: collects `\item` lines until the end tag, returning the
items and the number of lines consumed before the end-tag line. -/
def parseItems (endTag : Str) : List Str → List TNode × Nat
  | [] => ([], 0)
  | l :: ls =>
    let t := jsTrim l
    if strStarts t endTag then ([], 0)
    else
      let res := parseItems endTag ls
      (if strStarts t (cs "\\item") then mkListItem (jsTrim (t.drop 5)) :: res.1 else res.1,
       res.2 + 1)

/-- Source `LatexSerializer.parseList`: returns the list node's items and the JS
loop's final index (the end-tag line, or `lines.length` if unterminated). -/
def parseListS (lines : List Str) (start : Nat) (isBullet : Bool) : List TNode × Nat :=
  let endTag := if isBullet then cs "\\end{itemize}" else cs "\\end{enumerate}"
  let res := parseItems endTag (lines.drop (start + 1))
  (res.1, start + 1 + res.2)

/-- First scanning loop of `LatexSerializer.parseTable`: walks the lines
from `start`, recording the last `\begin{tabular}` index, the last
`\end{tabular}` index, and stopping at the first `\end{table}`.  Returns
`(tabularStart?, tabularEnd?, tableEnd?, final index)`. -/
def tblScan : List Str → Nat → Option Nat → Option Nat →
    Option Nat × Option Nat × Option Nat × Nat
  | [], i, ts, te => (ts, te, none, i)
  | l :: ls, i, ts, te =>
    let t := jsTrim l
    if strStarts t (cs "\\begin{tabular}") then tblScan ls (i + 1) (some i) te
    else if strStarts t (cs "\\end{tabular}") then tblScan ls (i + 1) ts (some i)
    else if strStarts t (cs "\\end{table}") then (ts, te, some i, i)
    else tblScan ls (i + 1) ts te

/-- Column count from a tabular column specification
(`colSpec.split('|').filter(col => col.trim() !== '')`, at least 1). -/
def specCount (spec : Str) : Nat :=
  let cols := (splitOnChar '|' spec).filter (fun c => !(jsTrim c).isEmpty)
  if cols.length > 0 then cols.length else 1

/-- The body group of the greedy regex
`\begin{tabular}\{[^}]+\}([\s\S]*)\end{tabular}`: at the first position
where the prefix matches, the greedy body runs to the last
`\end{tabular}` in the remainder (no match means `none`). -/
def tabularBodyOf : Str → Option Str
  | [] => none
  | c :: r =>
    if strStarts (c :: r) (cmdPat "\\begin{tabular}") then
      let rest := (c :: r).drop (cmdPat "\\begin{tabular}").length
      let arg := rest.takeWhile (fun x => x != rb)
      match rest.drop arg.length with
      | b :: after =>
        if arg.isEmpty || !(b == rb) then tabularBodyOf r
        else
          match lastFind after (cs "\\end{tabular}") with
          | some q => some (after.take q)
          | none => tabularBodyOf r
      | [] => tabularBodyOf r
    else tabularBodyOf r

/-- Strip a leading `\hline` and following whitespace
(`replace(/^\\hline\s*/, '')`). -/
def stripLeadHline (s : Str) : Str :=
  if strStarts s (cs "\\hline") then (s.drop 6).dropWhile isSpaceJS else s

/-- Strip a trailing `\hline` and preceding whitespace
(`replace(/\s*\\hline$/, '')`). -/
def stripTrailHline (s : Str) : Str :=
  let r := s.reverse
  if strStarts r (cs "\\hline").reverse then ((r.drop 6).dropWhile isSpaceJS).reverse
  else s

/-- One parsed table cell: inline-parse the cell text, fall back to a single
empty text node, wrap in a paragraph inside a header or data cell. -/
def mkTableCell (isHeader : Bool) (txt : Str) : TNode :=
  let ic := parseInline txt
  let pc := if ic.isEmpty then [TNode.text [] []] else ic
  if isHeader then .tableHeader [.paragraph pc] else .tableCell [.paragraph pc]

/-- The cells of one parsed table row: indices `0 ≤ j < max(cells, colCount)`,
with `cells[j] || ''` as the cell text (short rows padded with empty cells). -/
def rowCells (isHeader : Bool) (cells : List Str) (colCount : Nat) : List TNode :=
  (List.range (max cells.length colCount)).map (fun j => mkTableCell isHeader (cells.getD j []))

/-- Row-building loop of `LatexSerializer.parseTable` over the chunks
obtained by splitting the tabular body on `\\`: skips blank/rule-only
chunks, cleans each remaining chunk, splits it on `&`, and builds a
`tableRow` (first built row gets header cells). -/
def buildRows : List Str → Bool → Nat → List TNode
  | [], _, _ => []
  | raw :: rs, first, cc =>
    let t := jsTrim raw
    if t.isEmpty || t == cs "\\hline" then buildRows rs first cc
    else
      let c1 := stripLeadHline t
      let c2 := stripTrailHline c1
      let c3 := jsTrim (replaceAllStr (cs "\n") (cs " ") c2)
      if c3.isEmpty then buildRows rs first cc
      else
        let cells := (splitOnChar '&' c3).map jsTrim
        if cells.all (fun x => x.isEmpty) then buildRows rs first cc
        else .tableRow (rowCells first cells cc) :: buildRows rs false cc

/-- JS `tabularBody.split('\\\\')` (split on two backslashes),
fuel-bounded scan. -/
def splitDblAux : Nat → Str → List Str
  | 0, s => [s]
  | fuel + 1, s =>
    match findAux s (cs "\\\\") 0 with
    | some k => s.take k :: splitDblAux fuel (s.drop (k + 2))
    | none => [s]

/-- Split on the two-character row terminator `\\`. -/
def splitDbl (s : Str) : List Str := splitDblAux s.length s

/-- Source `LatexSerializer.parseTable`: returns the table node (or `none` when the
table environment, the tabular sub-environment, its column spec or any row
is missing) and the JS loop's final index. -/
def parseTableS (lines : List Str) (start : Nat) : Option TNode × Nat :=
  match tblScan (lines.drop start) start none none with
  | (some ts, some te, some tend, _) =>
    let tabularContent := joinSep (cs "\n") ((lines.drop ts).take (te + 1 - ts))
    match findCmdArg (cs "\\begin{tabular}") tabularContent with
    | none => (none, tend)
    | some spec =>
      let colCount := specCount spec
      match tabularBodyOf tabularContent with
      | none => (none, tend)
      | some body =>
        let rows := buildRows (splitDbl body) true colCount
        if rows.isEmpty then (none, tend) else (some (.table rows), tend)
  | (_, _, tendOpt, fi) => (none, match tendOpt with | some q => q | none => fi)

/-- Flush the current-paragraph buffer
(`if (currentParagraph.length > 0) nodes.push(createParagraphNode(join(' ')))`). -/
def flushPara (para : List Str) : List TNode :=
  if para.isEmpty then [] else [createParagraphNode (joinSep (cs " ") para)]

/-- Main line-scanning loop of `LatexSerializer.fromLatex`.  `i` is the loop
index, `para` the current-paragraph buffer; the branch order is exactly the
source's `if`/`continue` chain.  Each iteration advances `i` by at least
one (list and table sub-scans return an end index ≥ the start index), so
`lines.length + 1` fuel always suffices. -/
def scanAux (lines : List Str) : Nat → Nat → List Str → List TNode
  | 0, _, para => flushPara para
  | fuel + 1, i, para =>
    if i < lines.length then
      let line := jsTrim (lines.getD i [])
      if line.isEmpty then
        flushPara para ++ scanAux lines fuel (i + 1) []
      else if strStarts line (cmdPat "\\section") then
        flushPara para ++ [createHeadingNode (extractBraces line 8) 1] ++
          scanAux lines fuel (i + 1) []
      else if strStarts line (cmdPat "\\subsection") then
        flushPara para ++ [createHeadingNode (extractBraces line 11) 2] ++
          scanAux lines fuel (i + 1) []
      else if strStarts line (cmdPat "\\subsubsection") then
        flushPara para ++ [createHeadingNode (extractBraces line 14) 3] ++
          scanAux lines fuel (i + 1) []
      else if strStarts line (cs "\\begin{itemize}") || strStarts line (cs "\\begin{enumerate}") then
        let isB := containsSubstr line (cs "itemize")
        let res := parseListS lines i isB
        flushPara para ++ [if isB then TNode.bulletList res.1 else TNode.orderedList res.1] ++
          scanAux lines fuel (res.2 + 1) []
      else if strStarts line (cs "\\begin{table}") then
        let res := parseTableS lines i
        flushPara para ++ (match res.1 with | some n => [n] | none => []) ++
          scanAux lines fuel (res.2 + 1) []
      else scanAux lines fuel (i + 1) (para ++ [line])
    else flushPara para

/-- Body extraction of `fromLatex`: the greedy match
`\begin{document}([\s\S]*)\end{document}` (first opener, last closer), with
the body trimmed on success and the input returned unchanged otherwise. -/
def extractDocBodyS (s : Str) : Str :=
  match findAux s (cs "\\begin{document}") 0, lastFind s (cs "\\end{document}") with
  | some p, some q =>
    if p + 16 ≤ q then jsTrim ((s.drop (p + 16)).take (q - (p + 16))) else s
  | _, _ => s

/-- The block nodes `fromLatex` scans out of the input (before the
empty-document fallback). -/
def scanTop (s : Str) : List TNode :=
  let content := extractDocBodyS s
  let lines := splitOnChar '\n' content
  scanAux lines (lines.length + 1) 0 []

/-- Source `LatexSerializer.fromLatex`. -/
def fromLatex (s : Str) : TDoc :=
  let nodes := scanTop s
  ⟨if nodes.isEmpty then [createParagraphNode []] else nodes⟩

/-! ## Serializer: Tiptap → LaTeX (`LatexSerializer.toLatex`) -/

/-- One mark application of `LatexSerializer.formatText`'s loop
(the `switch (mark.type)` body). -/
def markWrap (t : Str) (m : Mark) : Str :=
  match m with
  | .bold => cmdPat "\\textbf" ++ t ++ [rb]
  | .italic => cmdPat "\\textit" ++ t ++ [rb]
  | .underline => cmdPat "\\underline" ++ t ++ [rb]
  | .code => cmdPat "\\texttt" ++ t ++ [rb]
  | .strike => cmdPat "\\st" ++ t ++ [rb]
  | .highlight => cmdPat "\\hl" ++ t ++ [rb]
  | .link href => cmdPat "\\href" ++ href ++ [rb] ++ [lb] ++ t ++ [rb]

/-- Source `LatexSerializer.formatText`: empty text is returned unchanged, otherwise
the marks are applied in the order they are listed on the node (each one
wrapping the accumulated text). -/
def formatText (t : Str) (marks : List Mark) : Str :=
  if t.isEmpty then [] else marks.foldl markWrap t

mutual

/-- Source `LatexSerializer.extractText`: text nodes are formatted, container nodes
concatenate their children, math nodes re-wrap their raw expression in
dollar delimiters, anything else yields the empty string. -/
def extractText : TNode → Str
  | .text t m => formatText t m
  | .inlineMath l => cs "$" ++ l ++ cs "$"
  | .blockMath l => cs "$$" ++ l ++ cs "$$"
  | .heading _ c => extractTextList c
  | .paragraph c => extractTextList c
  | .bulletList c => extractTextList c
  | .orderedList c => extractTextList c
  | .listItem c => extractTextList c
  | .blockquote c => extractTextList c
  | .table c => extractTextList c
  | .tableRow c => extractTextList c
  | .tableHeader c => extractTextList c
  | .tableCell c => extractTextList c
  | .hardBreak => []

/-- Source `node.content.map(extractText).join('')`. -/
def extractTextList : List TNode → Str
  | [] => []
  | n :: ns => extractText n ++ extractTextList ns

end

/-- Cell text used by `tableToLatex`: trimmed extracted text for
`tableCell` / `tableHeader` nodes, empty string for anything else. -/
def cellTxt : TNode → Str
  | .tableCell c => jsTrim (extractText (.tableCell c))
  | .tableHeader c => jsTrim (extractText (.tableHeader c))
  | _ => []

/-- One source row emitted by `tableToLatex` for a `tableRow` node: the
non-empty cell texts joined by `&`, terminated by the row marker and a rule
line; nothing for rows with no non-empty cell and for non-row nodes. -/
def rowLine : TNode → Str
  | .tableRow cells =>
    let ts := (cells.map cellTxt).filter (fun t => !t.isEmpty)
    if ts.isEmpty then [] else joinSep (cs " & ") ts ++ cs " \\\\\n\\hline\n"
  | _ => []

/-- Header of the emitted table environment: column spec built from the
first row's cell count as `|c` repeated, closed by `|`. -/
def tablePre (colCount : Nat) : Str :=
  cs "\\begin{table}[h]\n\\centering\n\\begin{tabular}" ++ [lb] ++
    flatStr (List.replicate colCount (cs "|c")) ++ cs "|" ++ [rb] ++ cs "\n\\hline\n"

/-- Source `LatexSerializer.tableToLatex` (on the table's row list): empty tables
yield the empty string; otherwise the column count is the first row's cell
count and each row contributes `rowLine`. -/
def tableToLatex (rows : List TNode) : Str :=
  if rows.isEmpty then []
  else
    tablePre (nodeContent (rows.headD .hardBreak)).length ++
      flatStr (rows.map rowLine) ++ cs "\\end{tabular}\n\\end{table}\n\n"

mutual

/-- Source `LatexSerializer.nodeToLatex`. -/
def nodeToLatex : TNode → Str → Str
  | .heading level c, _ =>
    let lv := if level == 0 then 1 else level
    let cmd := if lv == 2 then cs "subsection"
      else if lv == 3 then cs "subsubsection" else cs "section"
    cs "\\" ++ cmd ++ [lb] ++ extractTextList c ++ [rb] ++ cs "\n\n"
  | .paragraph c, _ =>
    let t := extractTextList c
    if (jsTrim t).isEmpty then cs "\n" else t ++ cs "\n\n"
  | .bulletList c, _ =>
    cs "\\begin{itemize}\n" ++ nodeListToLatex c (cs "  ") ++ cs "\\end{itemize}\n\n"
  | .orderedList c, _ =>
    cs "\\begin{enumerate}\n" ++ nodeListToLatex c (cs "  ") ++ cs "\\end{enumerate}\n\n"
  | .listItem c, indent => indent ++ cs "\\item " ++ extractTextList c ++ cs "\n"
  | .blockquote c, _ =>
    cs "\\begin{quote}\n" ++ nodeListToLatex c (cs "  ") ++ cs "\\end{quote}\n\n"
  | .table c, _ => tableToLatex c
  | .inlineMath l, _ => cs "$" ++ l ++ cs "$"
  | .blockMath l, _ => cs "$$" ++ l ++ cs "$$\n\n"
  | .text t m, _ => formatText t m
  | .hardBreak, _ => cs "\\\\\n"
  | .tableRow _, _ => []
  | .tableHeader _, _ => []
  | .tableCell _, _ => []

/-- The loop `for (const node of …) latex += nodeToLatex(node, indent)`. -/
def nodeListToLatex : List TNode → Str → Str
  | [], _ => []
  | n :: ns, indent => nodeToLatex n indent ++ nodeListToLatex ns indent

end

/-- Source `LatexSerializer.toLatex`: fixed preamble, document body, closer. -/
def toLatex (d : TDoc) : Str :=
  cs "\\documentclass{article}\n" ++ cs "\\usepackage{amsmath}\n" ++
    cs "\\usepackage{hyperref}\n" ++ cs "\\usepackage{soul}\n" ++
    cs "\\usepackage{xcolor}\n" ++ cs "\\begin{document}\n\n" ++
    nodeListToLatex d.content [] ++ cs "\\end{document}\n"

/-! ## Renderer (`LatexRenderer`)

The external math typesetter (KaTeX) is an external collaborator: it is
modelled as a function parameter `k` taking the trimmed expression, the
display-mode flag and the strict flag, and either returning markup or
failing.  `renderMath` catches the failure and degrades it to the inline
error span, exactly as the source's `try`/`catch` does. -/

/-- Source `LatexRenderOptions` (the `macros` mapping is absorbed into the
typesetter parameter, which is the only consumer of it). -/
structure LatexRenderOptions where
  strict : Bool
  throwOnError : Bool

/-- Failure of the external typesetter. -/
abbrev KatexError := Str

/-- The external typesetter: expression, display mode, strict flag. -/
abbrev Typesetter := Str → Bool → Bool → Except KatexError Str

/-- HTML-escape `&`, `<`, `>` (the observable effect of the DOM
`textContent` / `innerHTML` round trip in `escapeHtml`). -/
def escapeHtml (s : Str) : Str :=
  s.foldr
    (fun c acc =>
      if c == '&' then cs "&amp;" ++ acc
      else if c == '<' then cs "&lt;" ++ acc
      else if c == '>' then cs "&gt;" ++ acc
      else c :: acc) []

/-- Source `LatexRenderer.renderMath`: calls the typesetter on the trimmed
expression and degrades a failure to the red `katex-error` span. -/
def renderMathK (k : Typesetter) (strictFlag : Bool) (m : Str) (displayMode : Bool) : Str :=
  match k (jsTrim m) displayMode strictFlag with
  | .ok h => h
  | .error _ =>
    cs "<span class=\"katex-error\" style=\"color: red;\">" ++ escapeHtml m ++ cs "</span>"

/-- Comment stripping (`content.replace(/%.*/g, '')`): on each line, drop
everything from the first `%` on. -/
def stripCommentsR (s : Str) : Str :=
  joinSep (cs "\n") ((splitOnChar '\n' s).map (fun l => l.takeWhile (fun c => c != '%')))

/-- Body extraction of the renderer (same greedy regex as the serializer's,
but without trimming the matched body). -/
def extractBodyR (s : Str) : Str :=
  match findAux s (cs "\\begin{document}") 0, lastFind s (cs "\\end{document}") with
  | some p, some q => if p + 16 ≤ q then (s.drop (p + 16)).take (q - (p + 16)) else s
  | _, _ => s

/-- Source `LatexRenderer.processSections`: `\section`, `\subsection`,
`\subsubsection` to `h1`/`h2`/`h3`, in that order. -/
def processSections (s : Str) : Str :=
  let s1 := replaceCmd (cmdPat "\\section") (fun c => cs "<h1>" ++ c ++ cs "</h1>") s
  let s2 := replaceCmd (cmdPat "\\subsection") (fun c => cs "<h2>" ++ c ++ cs "</h2>") s1
  replaceCmd (cmdPat "\\subsubsection") (fun c => cs "<h3>" ++ c ++ cs "</h3>") s2

/-- The per-item replacement inside a list environment
(`items.replace(/\item\s+([^\n]*)/g, '<li>$1</li>')`): `\item`, at least
one whitespace character (greedy, may cross lines), then the rest of the
line. -/
def replaceItemsAux : Nat → Str → Str
  | 0, s => s
  | _ + 1, [] => []
  | fuel + 1, c :: r =>
    if strStarts (c :: r) (cs "\\item") then
      let rest := (c :: r).drop 5
      let w := rest.takeWhile isSpaceJS
      if w.isEmpty then c :: replaceItemsAux fuel r
      else
        let rest2 := rest.drop w.length
        let content := rest2.takeWhile (fun x => x != '\n')
        cs "<li>" ++ content ++ cs "</li>" ++ replaceItemsAux fuel (rest2.drop content.length)
    else c :: replaceItemsAux fuel r

/-- Item replacement with fuel from the input length. -/
def replaceItems (s : Str) : Str := replaceItemsAux s.length s

/-- Column-alignment parse of `LatexRenderer.processTables`: walk the column
spec, `|` closes the current column, alignment letters `lcrpmb` extend it,
everything else is ignored; fallback when no column was found is
`max(1, pipeCount - 1)` centered columns. -/
def colsAux : Str → Str → List Str → List Str
  | [], cur, acc => if cur.isEmpty then acc else acc ++ [cur]
  | c :: r, cur, acc =>
    if c == '|' then
      if cur.isEmpty then colsAux r [] acc else colsAux r [] (acc ++ [cur])
    else if (cs "lcrpmb").contains c then colsAux r (cur ++ [c]) acc
    else colsAux r cur acc

/-- The parsed column list of a column spec, with the pipe-count fallback. -/
def parseColumns (spec : Str) : List Str :=
  let columns := colsAux spec [] []
  if columns.isEmpty then
    List.replicate (max 1 (countSubstr spec (cs "|") - 1)) (cs "c")
  else columns

/-- Whether a (already hline-stripped) row line ends in a row terminator
(`line.endsWith('\\\\') || line.endsWith('\\')`). -/
def endsBackslash (s : Str) : Bool := strStarts s.reverse (cs "\\")

/-- Remove one or two trailing backslashes (`replace(/\\\\?$/, '')`). -/
def stripRowEnd (s : Str) : Str :=
  let r := s.reverse
  if strStarts r (cs "\\\\") then (r.drop 2).reverse
  else if strStarts r (cs "\\") then (r.drop 1).reverse
  else s

/-- Row-collection loop of `LatexRenderer.processTables`: lines of the
tabular body; blank lines and bare `\hline` lines flush the current row;
other lines are hline-stripped, their cells appended, and a trailing `\\`
flushes. -/
def tableRowsOf : List Str → List Str → List (List Str)
  | [], cur => if cur.isEmpty then [] else [cur]
  | l :: ls, cur =>
    let t := jsTrim l
    if t.isEmpty || t == cs "\\hline" then
      if cur.isEmpty then tableRowsOf ls [] else cur :: tableRowsOf ls []
    else
      let l1 := stripLeadHline t
      let l2 := stripTrailHline l1
      let isEnd := endsBackslash l2
      let l3 := if isEnd then jsTrim (stripRowEnd l2) else l2
      let cells := (splitOnChar '&' l3).map jsTrim
      let cur2 := if cells.any (fun x => !x.isEmpty) then cur ++ cells else cur
      if isEnd && !cur2.isEmpty then cur2 :: tableRowsOf ls [] else tableRowsOf ls cur2

/-- Source `LatexRenderer.processFormatting`: the five inline commands, then the
line-break marker. -/
def processFormattingR (s : Str) : Str :=
  let s1 := replaceCmd (cmdPat "\\textbf") (fun c => cs "<strong>" ++ c ++ cs "</strong>") s
  let s2 := replaceCmd (cmdPat "\\textit") (fun c => cs "<em>" ++ c ++ cs "</em>") s1
  let s3 := replaceCmd (cmdPat "\\emph") (fun c => cs "<em>" ++ c ++ cs "</em>") s2
  let s4 := replaceCmd (cmdPat "\\underline") (fun c => cs "<u>" ++ c ++ cs "</u>") s3
  let s5 := replaceCmd (cmdPat "\\texttt") (fun c => cs "<code>" ++ c ++ cs "</code>") s4
  replaceAllStr (cs "\\\\") (cs "<br>") s5

/-- One HTML cell of the rendered table (alignment from the column list
with last-column fallback, `th` in the first row, `&nbsp;` for empty
cells, inline formatting applied to the cell content). -/
def cellHtml (columns : List Str) (rowIdx cellIdx : Nat) (cell : Str) : Str :=
  let a0 := columns.getD cellIdx []
  let a1 := if a0.isEmpty then columns.getLastD [] else a0
  let align := if a1.isEmpty then cs "c" else a1
  let alignment := if align.contains 'l' then cs "left"
    else if align.contains 'r' then cs "right" else cs "center"
  let tag := if rowIdx == 0 then cs "th" else cs "td"
  let content := if cell.isEmpty then cs "&nbsp;" else cell
  cs "<" ++ tag ++ cs " style=\"text-align: " ++ alignment ++ cs ";\">" ++
    processFormattingR content ++ cs "</" ++ tag ++ cs ">"

/-- The cells of one HTML row. -/
def cellsHtml (columns : List Str) (rowIdx : Nat) : List Str → Nat → Str
  | [], _ => []
  | c :: rest, cellIdx => cellHtml columns rowIdx cellIdx c ++ cellsHtml columns rowIdx rest (cellIdx + 1)

/-- The HTML rows of the rendered table (rows that are empty or all-blank
are skipped, but still advance the row index). -/
def rowsHtml (columns : List Str) : List (List Str) → Nat → Str
  | [], _ => []
  | cells :: rest, rowIdx =>
    (if cells.isEmpty || cells.all (fun c => c.isEmpty) then []
     else cs "<tr>" ++ cellsHtml columns rowIdx cells 0 ++ cs "</tr>") ++
      rowsHtml columns rest (rowIdx + 1)

/-- First match of the lazy tabular regex
`\begin{tabular}\{([^}]+)\}([\s\S]*?)\end{tabular}` inside the table
content: the column spec and the body (body lazily closed by the first
`\end{tabular}`). -/
def tabularBodyLazyOf : Str → Option (Str × Str)
  | [] => none
  | c :: r =>
    if strStarts (c :: r) (cmdPat "\\begin{tabular}") then
      let rest := (c :: r).drop (cmdPat "\\begin{tabular}").length
      let arg := rest.takeWhile (fun x => x != rb)
      match rest.drop arg.length with
      | b :: after =>
        if arg.isEmpty || !(b == rb) then tabularBodyLazyOf r
        else
          match findAux after (cs "\\end{tabular}") 0 with
          | some q => some (arg, after.take q)
          | none => tabularBodyLazyOf r
      | [] => tabularBodyLazyOf r
    else tabularBodyLazyOf r

/-- The callback body of `processTables`: caption lookup, tabular lookup
(returning the original match when absent), column parse, row collection,
HTML assembly. -/
def buildTableHtml (tableContent origMatch : Str) : Str :=
  let caption := findCmdArg (cs "\\caption") tableContent
  match tabularBodyLazyOf tableContent with
  | none => origMatch
  | some (spec, body) =>
    let columns := parseColumns spec
    let rows := tableRowsOf (splitOnChar '\n' body) []
    cs "<div class=\"latex-table-wrapper\">" ++ cs "<table class=\"latex-table\">" ++
      rowsHtml columns rows 0 ++ cs "</table>" ++
      (match caption with
       | some cap => cs "<div class=\"latex-table-caption\">" ++ escapeHtml cap ++ cs "</div>"
       | none => []) ++
      cs "</div>"

/-- End of the optional position group `(\[.*?\])?` after `\begin{table}`:
first `]` in the remainder reached without crossing a newline (`.` does not
match newlines). -/
def posGroupEnd : Str → Option Nat
  | [] => none
  | x :: xs =>
    if x == ']' then some 0
    else if x == '\n' then none
    else (posGroupEnd xs).map (· + 1)

/-- Global replacement for
`\begin{table}(\[.*?\])?([\s\S]*?)\end{table}` with the table callback:
at each `\begin{table}` the optional bracket group is consumed when it can
close on the same line, the lazy body runs to the first `\end{table}`
after it (with the regex-backtracking fallback of dropping the group), and
the whole match is handed to `buildTableHtml` (which re-emits the original
match when no tabular sub-environment is present). -/
def processTablesAux : Nat → Str → Str
  | 0, s => s
  | _ + 1, [] => []
  | fuel + 1, c :: r =>
    if strStarts (c :: r) (cs "\\begin{table}") then
      let rest := (c :: r).drop 13
      let rest1 := match rest with
        | '[' :: rr =>
          match posGroupEnd rr with
          | some k => rr.drop (k + 1)
          | none => rest
        | _ => rest
      match findAux rest1 (cs "\\end{table}") 0 with
      | some k =>
        let tableContent := rest1.take k
        let consumed := 13 + (rest.length - rest1.length) + k + 11
        buildTableHtml tableContent ((c :: r).take consumed) ++
          processTablesAux fuel (rest1.drop (k + 11))
      | none =>
        if rest1.length == rest.length then c :: processTablesAux fuel r
        else
          match findAux rest (cs "\\end{table}") 0 with
          | some k2 =>
            buildTableHtml (rest.take k2) ((c :: r).take (13 + k2 + 11)) ++
              processTablesAux fuel (rest.drop (k2 + 11))
          | none => c :: processTablesAux fuel r
    else c :: processTablesAux fuel r

/-- Source `LatexRenderer.processTables`. -/
def processTables (s : Str) : Str := processTablesAux s.length s

/-- Source `LatexRenderer.processEnvironments`: itemize, enumerate, verbatim,
center, then the table transform, in source order. -/
def processEnvs (s : Str) : Str :=
  let s1 := replaceEnv (cs "\\begin{itemize}") (cs "\\end{itemize}")
    (fun items => cs "<ul>" ++ replaceItems items ++ cs "</ul>") s
  let s2 := replaceEnv (cs "\\begin{enumerate}") (cs "\\end{enumerate}")
    (fun items => cs "<ol>" ++ replaceItems items ++ cs "</ol>") s1
  let s3 := replaceEnv (cs "\\begin{verbatim}") (cs "\\end{verbatim}")
    (fun b => cs "<pre><code>" ++ b ++ cs "</code></pre>") s2
  let s4 := replaceEnv (cs "\\begin{center}") (cs "\\end{center}")
    (fun b => cs "<div style=\"text-align: center;\">" ++ b ++ cs "</div>") s3
  processTables s4

/-- Global replacement of display math `\$\$([\s\S]*?)\$\$` (lazy body:
closed by the next `$$`); a lone `$$` with no closing pair stays literal. -/
def replaceDDAux (f : Str → Bool → Str) : Nat → Str → Str
  | 0, s => s
  | _ + 1, [] => []
  | fuel + 1, c :: r =>
    match c, r with
    | '$', '$' :: r2 =>
      (match findDD r2 with
       | some k => f (r2.take k) true ++ replaceDDAux f fuel (r2.drop (k + 2))
       | none => '$' :: replaceDDAux f fuel ('$' :: r2))
    | _, _ => c :: replaceDDAux f fuel r

/-- Display-math replacement with fuel from the input length. -/
def replaceDD (f : Str → Bool → Str) (s : Str) : Str := replaceDDAux f s.length s

/-- Global replacement of inline math `\$([^\$\n]+?)\$`: the lazy
one-or-more body means the closing delimiter is the first `$` after the
opener, the content must be non-empty and must not contain a newline. -/
def replaceSingleAux (f : Str → Bool → Str) : Nat → Str → Str
  | 0, s => s
  | _ + 1, [] => []
  | fuel + 1, c :: r =>
    if c == '$' then
      match findCharFrom r '$' 0 with
      | some q =>
        if 1 ≤ q && (r.take q).all (fun x => x != '\n') then
          f (r.take q) false ++ replaceSingleAux f fuel (r.drop (q + 1))
        else c :: replaceSingleAux f fuel r
      | none => c :: replaceSingleAux f fuel r
    else c :: replaceSingleAux f fuel r

/-- Inline-math replacement with fuel from the input length. -/
def replaceSingle (f : Str → Bool → Str) (s : Str) : Str := replaceSingleAux f s.length s

/-- Source `LatexRenderer.processMath`: `$$…$$`, `\[…\]`, `$…$`, `\(…\)`, in
source order, each span replaced by the typeset output `f` in the
corresponding display mode. -/
def processMathP (f : Str → Bool → Str) (s : Str) : Str :=
  let s1 := replaceDD f s
  let s2 := replaceEnv (cs "\\[") (cs "\\]") (fun m => f m true) s1
  let s3 := replaceSingle f s2
  replaceEnv (cs "\\(") (cs "\\)") (fun m => f m false) s3

/-- Split on blank-line boundaries (`split(/\n\s*\n/)`): a newline, greedy
whitespace, and the last newline of that whitespace run form one
separator. -/
def splitBlankAux : Nat → Str → Str → List Str
  | 0, acc, s => [acc ++ s]
  | _ + 1, acc, [] => [acc]
  | fuel + 1, acc, c :: r =>
    if c == '\n' then
      let w := r.takeWhile isSpaceJS
      match lastCharIdx w '\n' with
      | some k => acc :: splitBlankAux fuel [] (r.drop (k + 1))
      | none => splitBlankAux fuel (acc ++ [c]) r
    else splitBlankAux fuel (acc ++ [c]) r

/-- Paragraph split of `processParagraphs`. -/
def splitBlank (s : Str) : List Str := splitBlankAux (s.length + 1) [] s

/-- The chunk test `/^<(h[1-6]|ul|ol|pre|div|table)/`. -/
def startsBlockTag : Str → Bool
  | '<' :: rest =>
    (match rest with
     | 'h' :: d :: _ =>
       d == '1' || d == '2' || d == '3' || d == '4' || d == '5' || d == '6'
     | _ => false) ||
    strStarts rest (cs "ul") || strStarts rest (cs "ol") ||
    strStarts rest (cs "pre") || strStarts rest (cs "div") ||
    strStarts rest (cs "table")
  | _ => false

/-- Source `LatexRenderer.processParagraphs`: trim each blank-line chunk, keep
block-level chunks as they are, wrap the rest in `<p>` tags, drop empty
chunks (to the empty string), and re-join with newlines. -/
def processParagraphs (s : Str) : Str :=
  joinSep (cs "\n") ((splitBlank s).map (fun p =>
    let t := jsTrim p
    if t.isEmpty then []
    else if startsBlockTag t then t
    else cs "<p>" ++ t ++ cs "</p>"))

/-- Source `LatexRenderer.processDocument`: the fixed transform pipeline. -/
def processDocument (opts : LatexRenderOptions) (k : Typesetter) (s : Str) : Str :=
  let c1 := stripCommentsR s
  let c2 := extractBodyR c1
  let c3 := processSections c2
  let c4 := processEnvs c3
  let c5 := processMathP (renderMathK k opts.strict) c4
  let c6 := processFormattingR c5
  let c7 := processParagraphs c6
  cs "<div class=\"latex-document\">" ++ c7 ++ cs "</div>"

/-- An error escaping the renderer's `try` block (its message). -/
abbrev RenderError := Str

/-- Source `LatexRenderer.renderError`: the styled error fragment produced in
non-strict mode. -/
def renderErrorHtml (e : RenderError) : Str :=
  cs "\n      <div class=\"latex-preview-error\">\n        <strong>LaTeX Rendering Error:</strong><br>\n        " ++
    escapeHtml e ++ cs "\n      </div>\n    "

/-- The `try` block of `LatexRenderer.render`: a single `processDocument`
call.  The embedded `processDocument` is a total function (its only
fallible step, the external typesetter call, is already caught inside
`renderMath`), so the body always succeeds. -/
def renderBody (opts : LatexRenderOptions) (k : Typesetter) (s : Str) : Except RenderError Str :=
  .ok (processDocument opts k s)

/-- The `catch` block of `LatexRenderer.render`: rethrow in strict mode,
otherwise degrade to the styled error fragment. -/
def renderCatch (opts : LatexRenderOptions) (e : RenderError) : Except RenderError Str :=
  if opts.throwOnError then .error e else .ok (renderErrorHtml e)

/-- Source `LatexRenderer.render`. -/
def render (opts : LatexRenderOptions) (k : Typesetter) (s : Str) : Except RenderError Str :=
  match renderBody opts k s with
  | .ok h => .ok h
  | .error e => renderCatch opts e

/-! ## Observation predicates on parsed trees -/

mutual

/-- Every paragraph node in the tree has non-empty content. -/
def paraOk : TNode → Bool
  | .paragraph c => !c.isEmpty && paraOkList c
  | .heading _ c => paraOkList c
  | .bulletList c => paraOkList c
  | .orderedList c => paraOkList c
  | .listItem c => paraOkList c
  | .blockquote c => paraOkList c
  | .table c => paraOkList c
  | .tableRow c => paraOkList c
  | .tableHeader c => paraOkList c
  | .tableCell c => paraOkList c
  | .inlineMath _ => true
  | .blockMath _ => true
  | .text _ _ => true
  | .hardBreak => true

/-- Source `paraOk` on every node of a list. -/
def paraOkList : List TNode → Bool
  | [] => true
  | n :: ns => paraOk n && paraOkList ns

end

mutual

/-- Whether some text or math node in the tree contains `pat` as a
substring. -/
def nodeHasStr : TNode → Str → Bool
  | .text t _, pat => containsSubstr t pat
  | .inlineMath l, pat => containsSubstr l pat
  | .blockMath l, pat => containsSubstr l pat
  | .heading _ c, pat => nodeListHasStr c pat
  | .paragraph c, pat => nodeListHasStr c pat
  | .bulletList c, pat => nodeListHasStr c pat
  | .orderedList c, pat => nodeListHasStr c pat
  | .listItem c, pat => nodeListHasStr c pat
  | .blockquote c, pat => nodeListHasStr c pat
  | .table c, pat => nodeListHasStr c pat
  | .tableRow c, pat => nodeListHasStr c pat
  | .tableHeader c, pat => nodeListHasStr c pat
  | .tableCell c, pat => nodeListHasStr c pat
  | .hardBreak, _ => false

/-- Source `nodeHasStr` over a list of nodes. -/
def nodeListHasStr : List TNode → Str → Bool
  | [], _ => false
  | n :: ns, pat => nodeHasStr n pat || nodeListHasStr ns pat

end

/-- Whether some text or math node of the document contains `pat`. -/
def docHasStr (d : TDoc) (pat : Str) : Bool := nodeListHasStr d.content pat

mutual

/-- Whether some text node in the tree carries both the bold and the italic
mark. -/
def nodeHasBoldItalic : TNode → Bool
  | .text _ marks => marks.contains .bold && marks.contains .italic
  | .heading _ c => nodeListHasBoldItalic c
  | .paragraph c => nodeListHasBoldItalic c
  | .bulletList c => nodeListHasBoldItalic c
  | .orderedList c => nodeListHasBoldItalic c
  | .listItem c => nodeListHasBoldItalic c
  | .blockquote c => nodeListHasBoldItalic c
  | .table c => nodeListHasBoldItalic c
  | .tableRow c => nodeListHasBoldItalic c
  | .tableHeader c => nodeListHasBoldItalic c
  | .tableCell c => nodeListHasBoldItalic c
  | .inlineMath _ => false
  | .blockMath _ => false
  | .hardBreak => false

/-- Source `nodeHasBoldItalic` over a list of nodes. -/
def nodeListHasBoldItalic : List TNode → Bool
  | [] => false
  | n :: ns => nodeHasBoldItalic n || nodeListHasBoldItalic ns

end

/-- The cell counts of a table node's rows (empty for non-tables). -/
def tableRowLens : TNode → List Nat
  | .table rows => rows.map (fun r => (nodeContent r).length)
  | _ => []

/-! ## Concrete fixtures for the claims -/

/-- A concrete typesetter standing in for the KaTeX collaborator in
evaluations: wraps the expression in a display/inline tag. -/
def typesetEcho : Typesetter :=
  fun m dm _ => .ok ((if dm then cs "[DM]" else cs "[IM]") ++ m)

/-- A concrete always-failing typesetter. -/
def typesetFail : Typesetter := fun _ _ _ => .error (cs "boom")

/-- The renderer's default options (`strict: false, throwOnError: false`). -/
def renderOptsDefault : LatexRenderOptions := ⟨false, false⟩

/-- Whether some text node of the document carries both bold and italic. -/
def docHasBoldItalic (d : TDoc) : Bool := nodeListHasBoldItalic d.content

/-- A document holding one Text node with marks listed `[bold, italic]`. -/
def docBI : TDoc := ⟨[.paragraph [.text (cs "x") [.bold, .italic]]]⟩

/-- The same document with the marks listed `[italic, bold]`. -/
def docIB : TDoc := ⟨[.paragraph [.text (cs "x") [.italic, .bold]]]⟩

/-- A header cell holding one paragraph of plain text. -/
def fxHdr (t : String) : TNode := .tableHeader [.paragraph [.text (cs t) []]]

/-- A data cell holding one paragraph of plain text. -/
def fxCell (t : String) : TNode := .tableCell [.paragraph [.text (cs t) []]]

/-- Table source whose second row has more cells than the 2-column spec. -/
def c2Input : Str :=
  cs "\\begin{table}\n\\begin{tabular}{|c|c|}\nA & B \\\\\n1 & 2 & 3 \\\\\n\\end{tabular}\n\\end{table}"

/-- The lines of `c2Input`. -/
def c2Lines : List Str := splitOnChar '\n' c2Input

/-- The table node `parseTableS` produces for `c2Input`: a 2-cell header
row and a 3-cell data row. -/
def c2Node : TNode :=
  .table [.tableRow [fxHdr "A", fxHdr "B"],
          .tableRow [fxCell "1", fxCell "2", fxCell "3"]]

/-- A table node whose second row has one empty cell. -/
def c3Table : TNode := .table [.tableRow [fxHdr "A", fxHdr "B"], .tableRow [fxCell "1", fxCell ""]]

/-- A table node whose second row is entirely empty. -/
def c3TableBlank : TNode := .table [.tableRow [fxHdr "A", fxHdr "B"], .tableRow [fxCell "", fxCell ""]]

/-- A well-formed single-row table used as witness data. -/
def c3RowsGood : List TNode := [.tableRow [fxHdr "A", fxHdr "B"]]

/-- A table environment with no tabular sub-block. -/
def c5TableInput : Str := cs "\\begin{table}\nhello\n\\end{table}"

/-- A bulleted list environment with no end marker. -/
def c5ListInput : Str := cs "\\begin{itemize}\n\\item A"

/-- The bare tabular input of the spec's renderer scenario (no surrounding
table environment, no caption). -/
def c8Bare : Str :=
  cs "\\begin{tabular}{|c|c|}\n\\hline\nA & B \\\\\n\\hline\n\\end{tabular}"

/-- The same tabular wrapped in a table environment. -/
def c8Wrapped : Str :=
  cs "\\begin{table}\n\\begin{tabular}{|c|c|}\n\\hline\nA & B \\\\\n\\hline\n\\end{tabular}\n\\end{table}"

/-! ## Helper lemmas -/

theorem paraOkList_append (a b : List TNode) :
    paraOkList (a ++ b) = (paraOkList a && paraOkList b) := by
  induction a with
  | nil => simp [paraOkList]
  | cons n ns ih => simp [paraOkList, ih, Bool.and_assoc]

theorem parseFormatting_ok (t : Str) : paraOkList (parseFormatting t) = true := by
  unfold parseFormatting
  dsimp only
  split <;> simp [paraOkList, paraOk]

theorem flushFmt_ok (cur : Str) : paraOkList (flushFmt cur) = true := by
  unfold flushFmt
  split
  · simp [paraOkList]
  · exact parseFormatting_ok cur

theorem parseInlineAux_ok (fuel : Nat) :
    ∀ rest cur, paraOkList (parseInlineAux fuel rest cur) = true := by
  induction fuel with
  | zero => intro rest cur; simpa [parseInlineAux] using flushFmt_ok cur
  | succ n ih =>
    intro rest cur
    cases rest with
    | nil => simpa [parseInlineAux] using flushFmt_ok cur
    | cons c r =>
      simp only [parseInlineAux]
      split
      · split
        · rw [paraOkList_append, flushFmt_ok]
          split
          · simp [paraOkList, paraOk, ih]
          · simp [ih]
        · rw [paraOkList_append, flushFmt_ok]
          split
          · simp [paraOkList, paraOk, ih]
          · simp [ih]
      · exact ih r (cur ++ [c])

theorem parseInline_ok (t : Str) : paraOkList (parseInline t) = true :=
  parseInlineAux_ok (t.length + 1) t []

theorem createParagraphNode_ok (t : Str) : paraOk (createParagraphNode t) = true := by
  unfold createParagraphNode
  dsimp only
  simp only [paraOk, Bool.and_eq_true]
  split
  · exact ⟨rfl, by simp [paraOkList, paraOk]⟩
  · next h => exact ⟨by simpa using h, parseInline_ok t⟩

theorem flushPara_ok (para : List Str) : paraOkList (flushPara para) = true := by
  unfold flushPara
  split
  · simp [paraOkList]
  · simp [paraOkList, createParagraphNode_ok]

theorem parseItems_ok (endTag : Str) :
    ∀ ls, paraOkList (parseItems endTag ls).1 = true := by
  intro ls
  induction ls with
  | nil => simp [parseItems, paraOkList]
  | cons l ls ih =>
    simp only [parseItems]
    split
    · simp [paraOkList]
    · split
      · simpa [paraOkList, mkListItem, paraOk] using ih
      · exact ih

theorem mkTableCell_ok (b : Bool) (t : Str) : paraOk (mkTableCell b t) = true := by
  unfold mkTableCell
  dsimp only
  split <;> split <;> simp_all [paraOk, paraOkList, parseInline_ok]

theorem paraOkList_all (l : List TNode) : paraOkList l = l.all paraOk := by
  induction l with
  | nil => simp [paraOkList]
  | cons n ns ih => simp [paraOkList, ih]

theorem rowCells_ok (b : Bool) (cells : List Str) (cc : Nat) :
    paraOkList (rowCells b cells cc) = true := by
  rw [paraOkList_all, List.all_eq_true]
  intro x hx
  rcases List.mem_map.1 hx with ⟨j, _, rfl⟩
  exact mkTableCell_ok b _

theorem buildRows_ok (raws : List Str) :
    ∀ first cc, paraOkList (buildRows raws first cc) = true := by
  induction raws with
  | nil => intro first cc; simp [buildRows, paraOkList]
  | cons raw rs ih =>
    intro first cc
    simp only [buildRows]
    split
    · exact ih first cc
    · split
      · exact ih first cc
      · split
        · exact ih first cc
        · simp only [paraOkList, Bool.and_eq_true]
          refine ⟨?_, ih false cc⟩
          simpa only [paraOk] using rowCells_ok first _ cc

theorem parseListS_ok (lines : List Str) (i : Nat) (b : Bool) :
    paraOkList (parseListS lines i b).1 = true := by
  unfold parseListS
  dsimp only
  exact parseItems_ok _ _

theorem parseTableS_ok (lines : List Str) (start : Nat) (n : TNode)
    (h : (parseTableS lines start).1 = some n) : paraOk n = true := by
  unfold parseTableS at h
  split at h
  · dsimp only at h
    split at h
    · simp at h
    · split at h
      · simp at h
      · split at h
        · simp at h
        · simp only [Option.some.injEq] at h
          subst h
          simpa only [paraOk] using buildRows_ok _ true _
  · simp at h

theorem scanAux_ok (lines : List Str) (fuel : Nat) :
    ∀ i para, paraOkList (scanAux lines fuel i para) = true := by
  induction fuel with
  | zero => intro i para; simpa [scanAux] using flushPara_ok para
  | succ f ih =>
    intro i para
    simp only [scanAux]
    split
    · split
      · simp [paraOkList_append, flushPara_ok, ih]
      · split
        · simp [paraOkList_append, flushPara_ok, ih, paraOkList, paraOk,
            createHeadingNode]
        · split
          · simp [paraOkList_append, flushPara_ok, ih, paraOkList, paraOk,
              createHeadingNode]
          · split
            · simp [paraOkList_append, flushPara_ok, ih, paraOkList, paraOk,
                createHeadingNode]
            · split
              · simp only [paraOkList_append, flushPara_ok, Bool.true_and,
                  Bool.and_eq_true]
                refine ⟨?_, ih _ []⟩
                split <;>
                  simp [paraOkList, paraOk, parseListS_ok]
              · split
                · simp only [paraOkList_append, flushPara_ok, Bool.true_and,
                    Bool.and_eq_true]
                  refine ⟨?_, ih _ []⟩
                  split
                  · next n heq =>
                    simp [paraOkList, parseTableS_ok lines i n heq]
                  · simp [paraOkList]
                · exact ih (i + 1) (para ++ [jsTrim (lines.getD i [])])
    · exact flushPara_ok para

theorem specCount_pos (spec : Str) : 1 ≤ specCount spec := by
  unfold specCount
  dsimp only
  split
  · next h => exact h
  · exact Nat.le_refl 1

theorem rowCells_length (b : Bool) (cells : List Str) (cc : Nat) :
    (rowCells b cells cc).length = max cells.length cc := by
  simp [rowCells]

theorem rowCells_getD (b : Bool) (cells : List Str) (cc j : Nat)
    (h1 : cells.length ≤ j) (h2 : j < max cells.length cc) :
    (rowCells b cells cc).getD j .hardBreak = mkTableCell b [] := by
  simp [rowCells, List.getD_eq_getElem?_getD, List.getElem?_map, List.getElem?_range, h2,
    List.getElem?_eq_none h1]

theorem buildRows_mem (raws : List Str) :
    ∀ first cc r, r ∈ buildRows raws first cc →
      ∃ b cells, r = TNode.tableRow (rowCells b cells cc) := by
  induction raws with
  | nil => simp [buildRows]
  | cons raw rs ih =>
    intro first cc r hr
    simp only [buildRows] at hr
    split at hr
    · exact ih first cc r hr
    · split at hr
      · exact ih first cc r hr
      · split at hr
        · exact ih first cc r hr
        · rcases List.mem_cons.1 hr with h | h
          · exact ⟨first, _, h⟩
          · exact ih false cc r h

theorem parseTableS_rows (lines : List Str) (start : Nat) (n : TNode)
    (h : (parseTableS lines start).1 = some n) :
    ∃ raws cc, 1 ≤ cc ∧ n = TNode.table (buildRows raws true cc) := by
  unfold parseTableS at h
  split at h
  · dsimp only at h
    split at h
    · simp at h
    · split at h
      · simp at h
      · split at h
        · simp at h
        · simp only [Option.some.injEq] at h
          exact ⟨_, _, specCount_pos _, h.symm⟩
  · simp at h

theorem cellTxt_filter (cells : List TNode) (h : ∀ c ∈ cells, cellTxt c ≠ []) :
    (cells.map cellTxt).filter (fun t => !t.isEmpty) = cells.map cellTxt := by
  apply List.filter_eq_self.mpr
  intro a ha
  rcases List.mem_map.1 ha with ⟨c, hc, rfl⟩
  simpa [List.isEmpty_eq_false] using h c hc

theorem rowLine_full (cells : List TNode) (hne : cells ≠ [])
    (h : ∀ c ∈ cells, cellTxt c ≠ []) :
    rowLine (.tableRow cells) =
      joinSep (cs " & ") (cells.map cellTxt) ++ cs " \\\\\n\\hline\n" := by
  simp only [rowLine]
  rw [cellTxt_filter cells h]
  split
  · next hemp =>
    have hm : cells.map cellTxt = [] := by simpa [List.isEmpty_iff] using hemp
    exact absurd (List.map_eq_nil_iff.1 hm) hne
  · rfl

theorem tableToLatex_struct (rows : List TNode) (h1 : rows ≠ []) :
    tableToLatex rows = tablePre (nodeContent (rows.headD .hardBreak)).length ++
      flatStr (rows.map rowLine) ++ cs "\\end{tabular}\n\\end{table}\n\n" := by
  unfold tableToLatex
  rw [if_neg (by simp [List.isEmpty_eq_false, h1])]

/-! ## Claim theorems -/

/-- C1 (counterexample): the claim says Write-then-Parse of a Text node
with marks bold and italic yields a Text node carrying both marks,
independent of the listed order.  In fact the re-parsed document contains
no text node carrying bold and italic at all (for either listed order),
although the original document does: `parseFormatting` replaces the
`\textbf`/`\textit` spans by `<BOLD>`/`<ITALIC>` placeholder text and
attaches no marks. -/
theorem C1_counterexample :
    docHasBoldItalic docBI = true ∧
    docHasBoldItalic (fromLatex (toLatex docBI)) = false ∧
    docHasBoldItalic (fromLatex (toLatex docIB)) = false :=
  ⟨by decide, by decide, by decide⟩

/-- C1 (amended): Write-then-Parse of a Text node "x" with marks bold and
italic yields a single mark-less Text node whose text is the original
wrapped in `<ITALIC>`/`<BOLD>` placeholder tags; the nesting of the
placeholders depends on the order the marks are listed on the node, so the
marks are neither recovered nor order-independent. -/
theorem C1_amended :
    fromLatex (toLatex docBI) =
      ⟨[.paragraph [.text (cs "<ITALIC><BOLD>x</BOLD></ITALIC>") []]]⟩ ∧
    fromLatex (toLatex docIB) =
      ⟨[.paragraph [.text (cs "<BOLD><ITALIC>x</BOLD></ITALIC>") []]]⟩ :=
  ⟨rfl, rfl⟩

/-- C2 (counterexample): the claim says every row of a parsed table has the
first (header) row's cell count.  Parsing a 2-column table whose second
source row has three cells yields rows with cell counts 2 and 3: a row
with more source cells than the parsed column count keeps all of them
(`Math.max(cells.length, colCount)`). -/
theorem C2_counterexample :
    (fromLatex c2Input).content.map tableRowLens = [[2, 3]] := by decide

/-- C2 (amended): every row of a table returned by the table sub-scan has
exactly `max (its source cell count) (parsed column count)` cells — at
least the parsed column count (which is at least 1), with indices past the
source cells padded by empty cells.  Rectangularity with the header row
can fail when a row has more source cells than the column count. -/
theorem C2_amended (lines : List Str) (start : Nat) (n : TNode)
    (h : (parseTableS lines start).1 = some n) :
    ∃ rows cc, 1 ≤ cc ∧ n = TNode.table rows ∧
      ∀ r ∈ rows, ∃ b cells, r = TNode.tableRow (rowCells b cells cc) ∧
        cc ≤ (rowCells b cells cc).length ∧
        (rowCells b cells cc).length = max cells.length cc ∧
        ∀ j, cells.length ≤ j → j < (rowCells b cells cc).length →
          (rowCells b cells cc).getD j .hardBreak = mkTableCell b [] := by
  rcases parseTableS_rows lines start n h with ⟨raws, cc, hcc, rfl⟩
  refine ⟨_, cc, hcc, rfl, ?_⟩
  intro r hr
  rcases buildRows_mem raws true cc r hr with ⟨b, cells, rfl⟩
  refine ⟨b, cells, rfl, ?_, rowCells_length b cells cc, ?_⟩
  · rw [rowCells_length]
    exact le_max_right _ _
  · intro j hj1 hj2
    rw [rowCells_length] at hj2
    exact rowCells_getD b cells cc j hj1 hj2

/-- C2 (witness): the amended statement applied to the concrete 2-column
table whose second row has three cells. -/
theorem C2_amended_witness :
    ∃ rows cc, 1 ≤ cc ∧ c2Node = TNode.table rows ∧
      ∀ r ∈ rows, ∃ b cells, r = TNode.tableRow (rowCells b cells cc) ∧
        cc ≤ (rowCells b cells cc).length ∧
        (rowCells b cells cc).length = max cells.length cc ∧
        ∀ j, cells.length ≤ j → j < (rowCells b cells cc).length →
          (rowCells b cells cc).getD j .hardBreak = mkTableCell b [] :=
  C2_amended c2Lines 0 c2Node (by rfl)

/-- C3 (counterexample): the claim says Write emits one source row per Row
node, each with exactly the first row's cell count.  For a 2-column table
whose second row has one empty cell the emitted second row has a single
cell (one ` & ` separator in the whole output instead of two), because
`tableToLatex` filters out empty cell texts; and a row whose cells are all
empty is not emitted at all (one row marker instead of two). -/
theorem C3_counterexample :
    countSubstr (toLatex ⟨[c3Table]⟩) (cs " & ") = 1 ∧
    countSubstr (toLatex ⟨[c3Table]⟩) (cs " \\\\\n") = 2 ∧
    countSubstr (toLatex ⟨[c3TableBlank]⟩) (cs " \\\\\n") = 1 :=
  ⟨by decide, by decide, by decide⟩

/-- C3 (amended): for a table whose rows are all `tableRow` nodes with a
non-empty cell list and only non-empty (trimmed) cell texts, Write emits
the column spec from the first row's cell count and one source row per Row
node, whose cells — as many as that row's own cells, not necessarily the
first row's count — are joined by the column separator and terminated by
the row marker.  Rows with empty cells lose them, because the writer
filters empty cell texts. -/
theorem C3_amended (rows : List TNode) (h1 : rows ≠ [])
    (h2 : ∀ r ∈ rows, ∃ cells, r = TNode.tableRow cells ∧ cells ≠ [] ∧
      ∀ c ∈ cells, cellTxt c ≠ []) :
    tableToLatex rows = tablePre (nodeContent (rows.headD .hardBreak)).length ++
      flatStr (rows.map rowLine) ++ cs "\\end{tabular}\n\\end{table}\n\n" ∧
    ∀ r ∈ rows, ∀ cells, r = TNode.tableRow cells →
      rowLine r = joinSep (cs " & ") (cells.map cellTxt) ++ cs " \\\\\n\\hline\n" ∧
      (cells.map cellTxt).length = cells.length := by
  refine ⟨tableToLatex_struct rows h1, ?_⟩
  intro r hr cells hcells
  subst hcells
  rcases h2 _ hr with ⟨cells2, heq, hne, hall⟩
  have hcc : cells = cells2 := by injection heq
  subst hcc
  exact ⟨rowLine_full cells hne hall, by simp⟩

/-- C3 (witness): the amended statement applied to a concrete one-row
table with two non-empty header cells. -/
theorem C3_amended_witness :
    tableToLatex c3RowsGood = tablePre (nodeContent (c3RowsGood.headD .hardBreak)).length ++
      flatStr (c3RowsGood.map rowLine) ++ cs "\\end{tabular}\n\\end{table}\n\n" ∧
    ∀ r ∈ c3RowsGood, ∀ cells, r = TNode.tableRow cells →
      rowLine r = joinSep (cs " & ") (cells.map cellTxt) ++ cs " \\\\\n\\hline\n" ∧
      (cells.map cellTxt).length = cells.length := by
  refine C3_amended c3RowsGood (by simp [c3RowsGood]) ?_
  intro r hr
  simp only [c3RowsGood, List.mem_singleton] at hr
  subst hr
  refine ⟨[fxHdr "A", fxHdr "B"], rfl, by simp, ?_⟩
  intro c hc
  rcases List.mem_cons.1 hc with h | h
  · subst h; decide
  · rcases List.mem_singleton.1 h with rfl; decide

/-- C4 (confirmed): for every input string, including the empty one,
`fromLatex` returns a document with a non-empty top-level block sequence;
when the scan produces no blocks the result is exactly one Paragraph
holding a single empty Text node. -/
theorem C4_total (s : Str) :
    (fromLatex s).content ≠ [] ∧
    (scanTop s = [] → fromLatex s = ⟨[.paragraph [.text [] []]]⟩) := by
  constructor
  · unfold fromLatex
    dsimp only
    split
    · simp
    · next h => simpa [List.isEmpty_iff] using h
  · intro h
    unfold fromLatex
    rw [h]
    rfl

/-- C4 (witness): the empty input, on which the scan produces no blocks. -/
theorem C4_total_witness :
    (fromLatex (cs "")).content ≠ [] ∧ fromLatex (cs "") = ⟨[.paragraph [.text [] []]]⟩ :=
  ⟨(C4_total (cs "")).1, (C4_total (cs "")).2 (by rfl)⟩

/-- C5 (counterexample): the claim says a malformed construct's text is
degraded to plain paragraph content.  A table environment with no tabular
sub-block is dropped entirely — its text `hello` appears in no node of the
result — and a bulleted list with no end marker is still parsed as a list
node, not as paragraph text. -/
theorem C5_counterexample :
    docHasStr (fromLatex c5TableInput) (cs "hello") = false ∧
    fromLatex c5ListInput = ⟨[.bulletList [.listItem [.paragraph [.text (cs "A") []]]]]⟩ :=
  ⟨by decide, rfl⟩

/-- C5 (amended): Parse returns (it is a total function) on such inputs,
but instead of degrading to paragraph text: a table environment lacking a
tabular sub-block contributes no node at all (here leaving only the
empty-document fallback paragraph), and a list environment missing its end
marker is parsed as a list of its item lines. -/
theorem C5_amended :
    fromLatex c5TableInput = ⟨[.paragraph [.text [] []]]⟩ ∧
    fromLatex c5ListInput = ⟨[.bulletList [.listItem [.paragraph [.text (cs "A") []]]]]⟩ :=
  ⟨rfl, rfl⟩

/-- C6 (confirmed): for every input, every typesetter behaviour and both
strict-flag values, `render` with `throwOnError: false` returns an HTML
string (never an error); a typesetter failure is caught inside
`renderMath` and degraded to the styled `katex-error` span; and the catch
handler of `render` rethrows exactly when `throwOnError` is true and
otherwise converts the error to the styled error fragment.  (In the
embedding the try-block is total, so the catch handler is the dispatch the
claim's strict-mode clause describes.) -/
theorem C6_render (k : Typesetter) (strict : Bool) (s m : Str) (e : KatexError) (dm : Bool)
    (h : k (jsTrim m) dm strict = .error e) :
    (∃ html, render ⟨strict, false⟩ k s = .ok html) ∧
    renderMathK k strict m dm =
      cs "<span class=\"katex-error\" style=\"color: red;\">" ++ escapeHtml m ++ cs "</span>" ∧
    renderCatch ⟨strict, true⟩ e = .error e ∧
    renderCatch ⟨strict, false⟩ e = .ok (renderErrorHtml e) := by
  refine ⟨⟨processDocument ⟨strict, false⟩ k s, rfl⟩, ?_, rfl, rfl⟩
  unfold renderMathK
  rw [h]

/-- C6 (witness): the statement at a concrete input with the always-failing
typesetter. -/
theorem C6_render_witness :
    (∃ html, render ⟨false, false⟩ typesetFail (cs "hi") = .ok html) ∧
    renderMathK typesetFail false (cs "x") true =
      cs "<span class=\"katex-error\" style=\"color: red;\">" ++ escapeHtml (cs "x") ++ cs "</span>" ∧
    renderCatch ⟨false, true⟩ (cs "boom") = .error (cs "boom") ∧
    renderCatch ⟨false, false⟩ (cs "boom") = .ok (renderErrorHtml (cs "boom")) :=
  C6_render typesetFail false (cs "hi") (cs "x") (cs "boom") true rfl

/-- C7 (counterexample): the claim says `fromLatex` strips `%`-prefixed
line comments, so comment text never appears in any node.  Parsing the
comment line `% hi` puts the full comment text into a text node. -/
theorem C7_counterexample :
    docHasStr (fromLatex (cs "% hi")) (cs "% hi") = true := by decide

/-- C7 (amended): `fromLatex` does not strip comments — a comment line is
ordinary paragraph text in the resulting tree.  Comment stripping happens
only in the renderer, whose first pipeline stage removes each line's tail
from the first `%` on. -/
theorem C7_amended :
    fromLatex (cs "% hi") = ⟨[.paragraph [.text (cs "% hi") []]]⟩ ∧
    stripCommentsR (cs "x % c\ny") = cs "x \ny" :=
  ⟨rfl, rfl⟩

/-- C8 (counterexample): the claim says rendering the bare tabular (no
surrounding table environment) produces a table element with 2-cell rows
and no caption.  The renderer's table transform only matches
`\begin{table}…\end{table}`, so the bare tabular is left as text and the
output contains no table element at all (and also no caption element). -/
theorem C8_counterexample :
    render renderOptsDefault typesetEcho c8Bare =
      .ok (processDocument renderOptsDefault typesetEcho c8Bare) ∧
    containsSubstr (processDocument renderOptsDefault typesetEcho c8Bare) (cs "<table") = false ∧
    containsSubstr (processDocument renderOptsDefault typesetEcho c8Bare) (cs "<caption") = false :=
  ⟨rfl, by decide, by decide⟩

/-- C8 (amended): the same tabular wrapped in a table environment renders
to a fragment with exactly one table element containing one row of two
header cells and no caption element; the bare tabular itself is not
recognised. -/
theorem C8_amended :
    countSubstr (processDocument renderOptsDefault typesetEcho c8Wrapped) (cs "<table") = 1 ∧
    countSubstr (processDocument renderOptsDefault typesetEcho c8Wrapped) (cs "<tr") = 1 ∧
    countSubstr (processDocument renderOptsDefault typesetEcho c8Wrapped) (cs "<th") = 2 ∧
    countSubstr (processDocument renderOptsDefault typesetEcho c8Wrapped) (cs "caption") = 0 ∧
    render renderOptsDefault typesetEcho c8Wrapped =
      .ok (processDocument renderOptsDefault typesetEcho c8Wrapped) :=
  ⟨by decide, by decide, by decide, by decide, rfl⟩

/-- C9 (counterexample): the claim says Write wraps marked text
innermost-first in the fixed declaration order (bold innermost before
italic), independent of the order the marks are listed on the node.  For
marks listed `[italic, bold]` the output contains `\textbf{\textit{x}}`
(italic innermost) and not the claimed `\textit{\textbf{x}}`. -/
theorem C9_counterexample :
    containsSubstr (toLatex docIB)
      (cmdPat "\\textit" ++ (cmdPat "\\textbf" ++ cs "x" ++ [rb]) ++ [rb]) = false ∧
    containsSubstr (toLatex docIB)
      (cmdPat "\\textbf" ++ (cmdPat "\\textit" ++ cs "x" ++ [rb]) ++ [rb]) = true :=
  ⟨by decide, by decide⟩

/-- C9 (amended): `formatText` wraps a non-empty text innermost-first in
the order the marks are listed on the node (first-listed innermost), so
the output depends on that order; a link mark is wrapped at its listed
position like any other mark, not forced outermost. -/
theorem C9_amended (s href : Str) (h : s ≠ []) :
    formatText s [Mark.bold, Mark.italic] =
      cmdPat "\\textit" ++ (cmdPat "\\textbf" ++ s ++ [rb]) ++ [rb] ∧
    formatText s [Mark.italic, Mark.bold] =
      cmdPat "\\textbf" ++ (cmdPat "\\textit" ++ s ++ [rb]) ++ [rb] ∧
    formatText s [Mark.link href, Mark.bold] =
      cmdPat "\\textbf" ++ (cmdPat "\\href" ++ href ++ [rb] ++ [lb] ++ s ++ [rb]) ++ [rb] := by
  cases s with
  | nil => exact absurd rfl h
  | cons c cs2 => refine ⟨?_, ?_, ?_⟩ <;> simp [formatText, markWrap, cmdPat]

/-- C9 (witness): the amended statement at the concrete text "x" and
href "u". -/
theorem C9_amended_witness :
    formatText (cs "x") [Mark.bold, Mark.italic] =
      cmdPat "\\textit" ++ (cmdPat "\\textbf" ++ cs "x" ++ [rb]) ++ [rb] ∧
    formatText (cs "x") [Mark.italic, Mark.bold] =
      cmdPat "\\textbf" ++ (cmdPat "\\textit" ++ cs "x" ++ [rb]) ++ [rb] ∧
    formatText (cs "x") [Mark.link (cs "u"), Mark.bold] =
      cmdPat "\\textbf" ++ (cmdPat "\\href" ++ cs "u" ++ [rb] ++ [lb] ++ cs "x" ++ [rb]) ++ [rb] :=
  C9_amended (cs "x") (cs "u") (by decide)

/-- C10 (confirmed): every Paragraph node anywhere in a tree returned by
`fromLatex` — top-level, inside a list item, or inside a table cell — has
non-empty inline content (`paraOk`), and when a paragraph's source text
yields no inline nodes the fallback is a single Text node holding the
empty string. -/
theorem C10_paragraphs (s t : Str) (h : parseInline t = []) :
    paraOkList (fromLatex s).content = true ∧
    createParagraphNode t = .paragraph [.text [] []] := by
  constructor
  · unfold fromLatex
    dsimp only
    split
    · simp [paraOkList, createParagraphNode_ok]
    · unfold scanTop
      dsimp only
      exact scanAux_ok _ _ _ _
  · simp [createParagraphNode, h]

/-- C10 (witness): the invariant at a concrete input and the fallback at
the empty source text. -/
theorem C10_paragraphs_witness :
    paraOkList (fromLatex (cs "x")).content = true ∧
    createParagraphNode (cs "") = .paragraph [.text [] []] :=
  C10_paragraphs (cs "x") (cs "") rfl
